import Mathlib

/-!
Verification of the v2cc voice-agent repository.

JavaScript strings are modelled as `List Char` (the sources only ever
inspect BMP characters, where JS UTF-16 code units and code points agree).
JavaScript numbers are modelled as `ℚ` together with an explicit `JSNum`
wrapper distinguishing the non-finite values where the code tests
`Number.isFinite`.  Int16Array contents are modelled as `List ℤ`.
-/

namespace V2CC

/-! ## JS string primitives -/

/-- Model of the JS `\s` character class / `String.prototype.trim` whitespace. -/
def isJsWs (c : Char) : Bool := c.isWhitespace

/-- Drop trailing whitespace. -/
def dropTrailWs (l : List Char) : List Char :=
  (l.reverse.dropWhile isJsWs).reverse

/-- Model of JS `String.prototype.trim`. -/
def trimL (l : List Char) : List Char :=
  dropTrailWs (l.dropWhile isJsWs)

/-! ## Punctuation normalizer (src/voice-agent.js lines 160-180, 963-986) -/

/-- `TRAILING_PUNCTUATION_REGEX` character class from src/voice-agent.js line 160. -/
def TRAILING_PUNCTUATION : List Char := ['。', '．', '.', '?', '!', '！', '？', '、', '，']

/-- `LATIN_ENDING_REGEX` from src/voice-agent.js line 161: a Latin letter or digit. -/
def isLatinEnding (c : Char) : Bool :=
  (decide ('A' ≤ c) && decide (c ≤ 'Z')) ||
  (decide ('a' ≤ c) && decide (c ≤ 'z')) ||
  (decide ('0' ≤ c) && decide (c ≤ '9'))

/-- `POLITE_BASE_ENDINGS` from src/voice-agent.js lines 162-171. -/
def POLITE_BASE_ENDINGS : List (List Char) :=
  ["です", "でした", "でしょう", "でしょ", "ます", "ました", "ません", "ませんでした"].map
    String.data

/-- `POLITE_SUFFIXES` from src/voice-agent.js line 172. -/
def POLITE_SUFFIXES : List (List Char) := ["ね", "よ", "よね"].map String.data

/-- `POLITE_QUESTION_SUFFIXES` from src/voice-agent.js line 173. -/
def POLITE_QUESTION_SUFFIXES : List (List Char) := ["か", "かね", "かしら"].map String.data

/-- `JAPANESE_POLITE_ENDINGS` from src/voice-agent.js lines 174-180 (the JS `Set`
only deduplicates; order and multiplicity are irrelevant to the `endsWith` search). -/
def JAPANESE_POLITE_ENDINGS : List (List Char) :=
  POLITE_BASE_ENDINGS ++
    POLITE_BASE_ENDINGS.flatMap (fun base =>
      POLITE_SUFFIXES.map (fun suffix => base ++ suffix) ++
      POLITE_QUESTION_SUFFIXES.map (fun suffix => base ++ suffix))

/-- `hasJapanesePoliteEnding` from src/voice-agent.js lines 963-970: does the text end
with any of the enumerated endings. -/
def hasJapanesePoliteEnding (t : List Char) : Bool :=
  JAPANESE_POLITE_ENDINGS.any (fun e => e.isSuffixOf t)

/-- `ensureTrailingPunctuation` from src/voice-agent.js lines 972-986.
The JS `trimmed.slice(-1)` (the last character) is modelled with `getLast?`;
the `none` branch is unreachable because `trimmed` is nonempty there. -/
def ensureTrailingPunctuation (text : List Char) : List Char :=
  if text = [] then text
  else
    let trimmed := trimL text
    if trimmed = [] then trimmed
    else
      match trimmed.getLast? with
      | none => trimmed
      | some last =>
        if TRAILING_PUNCTUATION.contains last then trimmed
        else if hasJapanesePoliteEnding trimmed then trimmed ++ ['。']
        else if isLatinEnding last then trimmed ++ ['.']
        else trimmed

/-! ## Conversation items and pruning (src/voice-agent.js lines 28-29, 903-961) -/

/-- One conversation item.  `message` items carry a `role` and text content;
`function_call` / `function_call_output` items carry a `type` and `call_id`.
`payload` stands for the remaining data fields (content text, tool name,
arguments, output), which pruning never inspects. -/
structure ConvItem where
  role : Option String
  type : Option String
  call_id : Option String
  payload : String
deriving DecidableEq, Repr

/-- The `item.role === 'system'` test used by `pruneConversation`. -/
def isSystemItem (it : ConvItem) : Bool := it.role = some "system"

/-- `MAX_HISTORY_ITEMS` from src/voice-agent.js line 29 (env default 20). -/
def MAX_HISTORY_ITEMS : Nat := 20

/-- JS `l.slice(-n)` for a nonnegative count: the last `n` items
(`slice(-0)` is `slice(0)`, the whole list). -/
def jsSliceLast (n : Nat) (l : List ConvItem) : List ConvItem :=
  if n = 0 then l else l.drop (l.length - n)

/-- `pruneConversation` from src/voice-agent.js lines 952-961, parametrized by the
configurable `MAX_HISTORY_ITEMS` bound. -/
def pruneConversation (maxItems : Nat) (conv : List ConvItem) : List ConvItem :=
  if conv.length ≤ maxItems then conv
  else
    conv.filter (fun it => isSystemItem it) ++
      jsSliceLast maxItems (conv.filter (fun it => !isSystemItem it))

/-- `addToConversation` from src/voice-agent.js lines 947-950: push then prune. -/
def addToConversation (maxItems : Nat) (conv : List ConvItem) (item : ConvItem) :
    List ConvItem :=
  pruneConversation maxItems (conv ++ [item])

/-- The `type: 'function_call'` discriminator (src/voice-agent.js line 905). -/
def isFunctionCall (it : ConvItem) : Bool := it.type = some "function_call"

/-- The `type: 'function_call_output'` discriminator (src/voice-agent.js line 917). -/
def isFunctionCallOutput (it : ConvItem) : Bool := it.type = some "function_call_output"

/-- Every `function_call` in the conversation is eventually followed by exactly one
`function_call_output` with matching `call_id` (the C2 pairing hypothesis). -/
def wellPaired (conv : List ConvItem) : Bool :=
  (List.range conv.length).all (fun i =>
    match conv.drop i with
    | it :: rest =>
      if isFunctionCall it then
        rest.countP (fun o => isFunctionCallOutput o && (o.call_id == it.call_id)) == 1
      else true
    | [] => true)

/-- A sample system message. -/
def sysItem : ConvItem := ⟨some "system", some "message", none, "prompt"⟩

/-- A sample user message. -/
def userItem (n : Nat) : ConvItem := ⟨some "user", some "message", none, toString n⟩

/-- A sample assistant message. -/
def asstItem (n : Nat) : ConvItem := ⟨some "assistant", some "message", none, toString n⟩

/-- A sample `function_call` item. -/
def fcItem : ConvItem := ⟨none, some "function_call", some "call-1", "tool"⟩

/-- The matching `function_call_output` item. -/
def fcoItem : ConvItem := ⟨none, some "function_call_output", some "call-1", "out"⟩

/-- C2 counterexample conversation: a `function_call`/`function_call_output` pair followed
by 19 user messages, 21 items in total, so pruning at the default bound 20 drops exactly
the `function_call` and keeps its output. -/
def c2CexConv : List ConvItem :=
  fcItem :: fcoItem :: (List.range 19).map userItem

/-! ## Session mode state machine (src/unnamed/part_006 lines 78, 324-327, 567-656) -/

/-- The three session modes. -/
inductive Mode where
  | off
  | detect
  | active
deriving DecidableEq, Repr, BEq

/-- `MODE_SEQUENCE` from src/unnamed/part_006 line 78. -/
def MODE_SEQUENCE : List Mode := [Mode.off, Mode.detect, Mode.active]

/-- The part of the TUI `state` object that the toggle logic reads and writes:
the current mode, the dispatch-target labels and the selected index
(`-1` means unselected). -/
structure TuiState where
  mode : Mode
  targets : List String
  targetIndex : Int
deriving DecidableEq, Repr

/-- `applyMode` from src/unnamed/part_006 lines 567-610, restricted to its state
effect: returns the new state, the boolean result, and the message displayed
via `ui.setMessage` (if any).  Timer/microphone side effects are ambient. -/
def applyMode (s : TuiState) (newMode : Mode) (message : Option String) :
    TuiState × Bool × Option String :=
  if MODE_SEQUENCE.contains newMode then
    if newMode = Mode.active ∧ (s.targets.length = 0 ∨ s.targetIndex = -1) then
      (s, false, none)
    else if s.mode = newMode then (s, true, message)
    else ({ s with mode := newMode }, true, message)
  else (s, false, none)

/-- `handleToggle` from src/unnamed/part_006 lines 633-656.  The JS
`state.targets[state.targetIndex].label` read in the success message is modelled
with `getD` (the branch guarantees a selected target in practice). -/
def handleToggle (s : TuiState) : TuiState × Bool × Option String :=
  let currentIndex := MODE_SEQUENCE.indexOf s.mode
  let nextIndex := (currentIndex + 1) % MODE_SEQUENCE.length
  let candidate := MODE_SEQUENCE.getD nextIndex Mode.off
  if candidate = Mode.active then
    if s.targets.length = 0 then
      applyMode s Mode.off (some "送信先候補がないためOFFに戻りました")
    else if s.targetIndex = -1 then
      applyMode s Mode.off (some "送信先を選択してください (矢印キー)。OFFに戻ります")
    else
      applyMode s Mode.active
        (some ("送信を開始します: " ++ s.targets.getD s.targetIndex.toNat ""))
  else if candidate = Mode.detect then
    applyMode s Mode.detect (some "解析モードに切り替えました")
  else
    applyMode s Mode.off (some "送信を停止しました")

/-! ## Audio resampling and normalization (src/unnamed/part_000 lines 6, 25-61) -/

/-- A JS number as used for sample rates: either one of the non-finite values or a
finite integer (every rate the program handles is an integer; the spec's data model
declares `sampleRate: integer`). -/
inductive JSNum where
  | nan
  | posInf
  | negInf
  | fin (z : ℤ)
deriving DecidableEq, Repr

/-- `Number.isFinite`. -/
def JSNum.isFiniteNum : JSNum → Bool
  | .fin _ => true
  | _ => false

/-- `PLAYBACK_SAMPLE_RATE` from src/unnamed/part_000 line 6. -/
def PLAYBACK_SAMPLE_RATE : ℤ := 24000

/-- JS `Math.round` (round half toward positive infinity). -/
def jsRound (q : ℚ) : ℤ := (q + 1/2).floor

/-- Conversion applied when storing a JS number into an `Int16Array` slot
(`ToInt16`: wrap modulo 2^16 into [-32768, 32767]). -/
def wrapInt16 (z : ℤ) : ℤ :=
  let m := z % 65536
  if 32768 ≤ m then m - 65536 else m

/-- `resampleLinear` from src/unnamed/part_000 lines 42-61.  The `fromRate <= 0`
test is only reached for finite rates (for NaN and infinities `Number.isFinite`
already fails).  The JS real-number floors are expressed as integer floor
divisions: `Math.floor(int16.length / (fromRate/toRate))` is
`(int16.length * toRate).fdiv fromRate` (exact since `fromRate > 0` after the
fixup), and `Math.floor(i * ratio)` is `(i * fromRate).fdiv toRate` (exact for
the positive `toRate = 24000` the program always passes).  The `int16[idx] ?? 0`
and `int16[idx + 1] ?? current` out-of-bounds fallbacks are modelled with `getD`. -/
def resampleLinear (int16 : List ℤ) (fromRate0 : JSNum) (toRate : ℤ) : List ℤ :=
  let fromRate : ℤ :=
    match fromRate0 with
    | .fin z => if z ≤ 0 then PLAYBACK_SAMPLE_RATE else z
    | _ => PLAYBACK_SAMPLE_RATE
  if fromRate = toRate then int16
  else
    let newLength : Nat := max 1 (((int16.length : ℤ) * toRate).fdiv fromRate).toNat
    (List.range newLength).map (fun (i : ℕ) =>
      let idx : Nat := (((i : ℤ) * fromRate).fdiv toRate).toNat
      let frac : ℚ := (((i : ℤ) * fromRate : ℤ) : ℚ) / ((toRate : ℤ) : ℚ) - (idx : ℚ)
      let current : ℤ := int16.getD idx 0
      let next : ℤ := int16.getD (idx + 1) current
      wrapInt16 (jsRound ((current : ℚ) * (1 - frac) + (next : ℚ) * frac)))

/-- `normalize` from src/unnamed/part_000 lines 25-40: peak-normalize toward 30000
unless the peak is zero or already at least 30000. -/
def normalize (samples : List ℤ) : List ℤ :=
  let peak : ℤ := samples.foldl (fun p x => max p |x|) 0
  if peak = 0 ∨ 30000 ≤ peak then samples
  else
    samples.map (fun (x : ℤ) =>
      max (-32768) (min 32767 (jsRound ((x : ℤ) * (30000 / (peak : ℚ))))))

/-! ## TTS segmenter (src/tts-client.js lines 1-132) -/

/-- `MAX_SEGMENT_CHARS` from src/tts-client.js line 1 (env default 70). -/
def MAX_SEGMENT_CHARS : Nat := 70

/-- `TARGET_SEGMENT_CHARS` from src/tts-client.js lines 2-5 (env default 30). -/
def TARGET_SEGMENT_CHARS : Nat := 30

/-- `CANDIDATE_DELIMITERS` from src/tts-client.js line 7. -/
def CANDIDATE_DELIMITERS : List Char :=
  ['。', '．', '.', '！', '!', '？', '?', '、', ',', '，', ';', '；', ':', '：', '※']

/-- `OPEN_BRACKETS` from src/tts-client.js line 8. -/
def OPEN_BRACKETS : List Char :=
  ['「', '『', '（', '(', '[', '\x7b', '〈', '《', '“', '"']

/-- `CLOSE_BRACKETS` from src/tts-client.js line 9. -/
def CLOSE_BRACKETS : List Char :=
  ['」', '』', '）', ')', ']', '\x7d', '〉', '》', '”', '"']

/-- `TOKEN_DELIMITERS` from src/tts-client.js line 11 (the JS `Set` only
deduplicates, irrelevant for membership tests). -/
def TOKEN_DELIMITERS : List Char :=
  CANDIDATE_DELIMITERS ++ OPEN_BRACKETS ++ CLOSE_BRACKETS ++ [' ']

/-- `LEADING_BREAK_DELIMITERS` from src/tts-client.js line 12. -/
def LEADING_BREAK_DELIMITERS : List Char := '※' :: OPEN_BRACKETS

/-- `TRAILING_BREAK_DELIMITERS` from src/tts-client.js line 13. -/
def TRAILING_BREAK_DELIMITERS : List Char :=
  ['。', '．', '.', '！', '!', '？', '?'] ++ CLOSE_BRACKETS

/-- `text.replace(/\s+/g, ' ')`: collapse every whitespace run to one space
(a whitespace character followed by another whitespace character is dropped;
the last character of a run becomes the single space). -/
def collapseWs : List Char → List Char
  | [] => []
  | [c] => if isJsWs c then [' '] else [c]
  | c1 :: c2 :: rest =>
    if isJsWs c1 then
      if isJsWs c2 then collapseWs (c2 :: rest)
      else ' ' :: c2 :: collapseWs rest
    else c1 :: collapseWs (c2 :: rest)

/-- `tokenize` from src/tts-client.js lines 72-86: cut a token after every
delimiter character. -/
def tokenizeGo : List Char → List Char → List (List Char)
  | [], buffer => if buffer = [] then [] else [buffer]
  | c :: rest, buffer =>
    let buffer2 := buffer ++ [c]
    if TOKEN_DELIMITERS.contains c then buffer2 :: tokenizeGo rest []
    else tokenizeGo rest buffer2

/-- `tokenize` entry point. -/
def tokenize (text : List Char) : List (List Char) := tokenizeGo text []

/-- `shouldBreakBefore` from src/tts-client.js lines 88-92: a nonempty token of
length 1 that is a leading-break delimiter. -/
def shouldBreakBefore : List Char → Bool
  | [c] => LEADING_BREAK_DELIMITERS.contains c
  | _ => false

/-- `shouldBreakAfter` from src/tts-client.js lines 94-98: last character is a
trailing-break delimiter. -/
def shouldBreakAfter (token : List Char) : Bool :=
  match token.getLast? with
  | some last => TRAILING_BREAK_DELIMITERS.contains last
  | none => false

/-- The `while` loop of `fallbackChunk` (src/tts-client.js lines 101-110):
slice `MAX_SEGMENT_CHARS`-sized pieces, trim each, keep the nonempty ones.
The explicit fuel bounds the iteration count (the cursor advances by
`MAX_SEGMENT_CHARS ≥ 1` characters per step, so `t.length` steps suffice). -/
def fallbackChunksFuel : Nat → List Char → List (List Char)
  | _, [] => []
  | 0, _ :: _ => []
  | fuel + 1, c :: rest =>
    let t := c :: rest
    let chunk := trimL (t.take MAX_SEGMENT_CHARS)
    let tail := fallbackChunksFuel fuel (t.drop MAX_SEGMENT_CHARS)
    if chunk = [] then tail else chunk :: tail

/-- The chunk list of `fallbackChunk`, with the fuel instantiated. -/
def fallbackChunks (t : List Char) : List (List Char) :=
  fallbackChunksFuel t.length t

/-- `fallbackChunk` from src/tts-client.js lines 100-115: the chunk list, or the
trimmed input as a single chunk when every slice trimmed to nothing. -/
def fallbackChunk (text : List Char) : List (List Char) :=
  let chunks := fallbackChunks text
  if chunks = [] then [trimL text] else chunks

/-- The token-accumulation loop of `splitIntoSegments` (src/tts-client.js lines
24-63), written as a recursion over the token list: `current` is the
accumulator string, and the emitted segments are returned in order.  In the JS
loop, when `merged.trim().length` stays within the maximum and neither the
target length nor a trailing-break delimiter is reached, the loop continues
with `current = merged`; each exit path below mirrors one `continue`/fall-through
of the loop body, and the trailing `if (current.trim())` push is the `[]` case. -/
def segLoop : List (List Char) → List Char → List (List Char)
  | [], current => if trimL current = [] then [] else [trimL current]
  | token :: rest, current =>
    if token = [] then segLoop rest current
    else
      let trimmedToken := trimL token
      let pre1 : List (List Char) :=
        if shouldBreakBefore trimmedToken ∧ trimL current ≠ [] then [trimL current] else []
      let cur1 : List Char :=
        if shouldBreakBefore trimmedToken ∧ trimL current ≠ [] then [] else current
      if MAX_SEGMENT_CHARS < token.length then
        if trimL cur1 = [] then pre1 ++ fallbackChunk token ++ segLoop rest cur1
        else pre1 ++ [trimL cur1] ++ fallbackChunk token ++ segLoop rest []
      else
        let merged := cur1 ++ token
        if MAX_SEGMENT_CHARS < (trimL merged).length then
          if trimL cur1 = [] then pre1 ++ segLoop rest token
          else pre1 ++ [trimL cur1] ++ segLoop rest token
        else
          if TARGET_SEGMENT_CHARS ≤ (trimL merged).length ∨ shouldBreakAfter trimmedToken then
            pre1 ++ [trimL merged] ++ segLoop rest []
          else pre1 ++ segLoop rest merged

/-- The push/pop loop of `mergeShortSegments` (src/tts-client.js lines 121-130),
with the accumulator kept reversed so the JS `merged.pop()` is the head.  The JS
template literal `${previous}${segment.startsWith(' ') ? '' : ''}${segment}` is
`previous ++ segment` (both ternary arms are the empty string). -/
def mergeLoop : List (List Char) → List (List Char) → List (List Char)
  | accRev, [] => accRev.reverse
  | accRev, segment :: rest =>
    if segment = [] then mergeLoop accRev rest
    else if segment.length ≤ 10 ∧ accRev ≠ [] then
      mergeLoop (trimL (accRev.headD [] ++ segment) :: accRev.tail) rest
    else mergeLoop (segment :: accRev) rest

/-- `mergeShortSegments` from src/tts-client.js lines 117-132. -/
def mergeShortSegments (segments : List (List Char)) : List (List Char) :=
  mergeLoop [] segments

/-- The `normalizedSegments` intermediate of `splitIntoSegments`
(src/tts-client.js lines 15-67): everything before the final
`mergeShortSegments` call. -/
def preMergeSegments (text : List Char) : List (List Char) :=
  if text = [] then []
  else
    let normalized := trimL (collapseWs text)
    if normalized = [] then []
    else
      (segLoop (tokenize normalized) []).flatMap (fun segment =>
        if MAX_SEGMENT_CHARS < segment.length then fallbackChunk segment else [segment])

/-- `splitIntoSegments` from src/tts-client.js lines 15-70. -/
def splitIntoSegments (text : List Char) : List (List Char) :=
  mergeShortSegments (preMergeSegments text)

/-- C5 counterexample input: 69 letters, a period, then one more letter. -/
def c5CexInput : List Char := List.replicate 69 'a' ++ ['.', 'b']

/-! ## Transcript extractor (src/voice-agent.js lines 1008-1053) -/

mutual
/-- A JSON-like event value.  Objects are restricted to the eight field names the
extractor inspects (`transcript`, `text`, `value`, `partial`, `delta`, `content`,
`item`, `items`); other fields are never read.  `jnull` also stands for
`undefined` values (both are falsy non-objects for this traversal). -/
inductive JSVal where
  | jnull
  | jbool (b : Bool)
  | jnum (n : ℤ)
  | jstr (s : List Char)
  | jarr (elems : JSArr)
  | jobj (fTranscript fText fValue fPartial fDelta fContent fItem fItems : JSField)

/-- An array of JSON-like values. -/
inductive JSArr where
  | nil
  | cons (head : JSVal) (tail : JSArr)

/-- A possibly absent object field (`absent` means the key is not present,
so JS `'partial' in node` is false). -/
inductive JSField where
  | absent
  | present (v : JSVal)
end

/-- The `consider` closure of `extractTranscript` (src/voice-agent.js lines
1011-1020), acting on the `(seen, best)` state for a string value. -/
def consider (st : List (List Char) × List Char) (value : List Char) :
    List (List Char) × List Char :=
  let text := trimL value
  if text = [] then st
  else if st.1.contains text then st
  else (text :: st.1, if st.2.length ≤ text.length then text else st.2)

/-- `consider(node.field)`: only string field values count. -/
def considerField (st : List (List Char) × List Char) (f : JSField) :
    List (List Char) × List Char :=
  match f with
  | .present (.jstr s) => consider st s
  | _ => st

mutual
/-- The `visit` closure of `extractTranscript` (src/voice-agent.js lines
1022-1049): falsy values are skipped, strings are considered, arrays are
traversed, and objects contribute their `transcript`/`text`/`value` string
fields and are traversed through `partial`/`delta`/`content`/`item` (when the
key is present) and through `items` (when it is an array). -/
def visit (st : List (List Char) × List Char) : JSVal → List (List Char) × List Char
  | .jnull => st
  | .jbool _ => st
  | .jnum _ => st
  | .jstr s => if s = [] then st else consider st s
  | .jarr elems => visitArr st elems
  | .jobj t x v p d c i its =>
    let st1 := considerField st t
    let st2 := considerField st1 x
    let st3 := considerField st2 v
    let st4 := visitField st3 p
    let st5 := visitField st4 d
    let st6 := visitField st5 c
    let st7 := visitField st6 i
    visitItems st7 its

/-- Traversal of an array (the `for (const entry of node)` loop). -/
def visitArr (st : List (List Char) × List Char) : JSArr → List (List Char) × List Char
  | .nil => st
  | .cons x xs => visitArr (visit st x) xs

/-- `if ('field' in node) visit(node.field)`. -/
def visitField (st : List (List Char) × List Char) : JSField →
    List (List Char) × List Char
  | .present v => visit st v
  | .absent => st

/-- `if (Array.isArray(node.items)) for (const item of node.items) visit(item)`. -/
def visitItems (st : List (List Char) × List Char) : JSField →
    List (List Char) × List Char
  | .present (.jarr l) => visitArr st l
  | _ => st
end

/-- `extractTranscript` from src/voice-agent.js lines 1008-1053. -/
def extractTranscript (message : JSVal) : List Char :=
  (visit ([], []) message).2

/-- The selection step the spec describes: keep the candidate whose length is at
least the current best's (so equal lengths prefer the later candidate). -/
def pickLonger (best c : List Char) : List Char :=
  if best.length ≤ c.length then c else best

/-- Spec-side `consider`: record a new nonempty trimmed string in first-seen
order instead of folding it into a running best. -/
def specConsider (st : List (List Char) × List (List Char)) (value : List Char) :
    List (List Char) × List (List Char) :=
  let text := trimL value
  if text = [] then st
  else if st.1.contains text then st
  else (text :: st.1, st.2 ++ [text])

/-- Spec-side `consider(node.field)`. -/
def specConsiderField (st : List (List Char) × List (List Char)) (f : JSField) :
    List (List Char) × List (List Char) :=
  match f with
  | .present (.jstr s) => specConsider st s
  | _ => st

mutual
/-- The spec's description of the algorithm: the same depth-first traversal, but
collecting the deduplicated trimmed strings in encounter order (the selection of
the longest / last-seen candidate happens afterwards). -/
def specVisit (st : List (List Char) × List (List Char)) :
    JSVal → List (List Char) × List (List Char)
  | .jnull => st
  | .jbool _ => st
  | .jnum _ => st
  | .jstr s => if s = [] then st else specConsider st s
  | .jarr elems => specVisitArr st elems
  | .jobj t x v p d c i its =>
    let st1 := specConsiderField st t
    let st2 := specConsiderField st1 x
    let st3 := specConsiderField st2 v
    let st4 := specVisitField st3 p
    let st5 := specVisitField st4 d
    let st6 := specVisitField st5 c
    let st7 := specVisitField st6 i
    specVisitItems st7 its

/-- Spec-side array traversal. -/
def specVisitArr (st : List (List Char) × List (List Char)) :
    JSArr → List (List Char) × List (List Char)
  | .nil => st
  | .cons x xs => specVisitArr (specVisit st x) xs

/-- Spec-side optional-field traversal. -/
def specVisitField (st : List (List Char) × List (List Char)) : JSField →
    List (List Char) × List (List Char)
  | .present v => specVisit st v
  | .absent => st

/-- Spec-side `items` traversal. -/
def specVisitItems (st : List (List Char) × List (List Char)) : JSField →
    List (List Char) × List (List Char)
  | .present (.jarr l) => specVisitArr st l
  | _ => st
end

/-- The deduplicated candidate strings of an event, in depth-first encounter
order. -/
def candidates (message : JSVal) : List (List Char) :=
  (specVisit ([], []) message).2

/-- The spec's extractor: collect the candidates, then pick the longest with
ties broken by the last-seen one (a left fold of `pickLonger` starting from the
empty string). -/
def specExtractTranscript (message : JSVal) : List Char :=
  (candidates message).foldl pickLonger []

/-- The C6 example event `\x7bdelta:\x7bitems:[\x7btranscript:"A"\x7d,
\x7btext:"ABC"\x7d]\x7d\x7d`. -/
def c6Example : JSVal :=
  .jobj .absent .absent .absent .absent
    (.present (.jobj .absent .absent .absent .absent .absent .absent .absent
      (.present (.jarr (.cons
        (.jobj (.present (.jstr "A".data)) .absent .absent .absent .absent .absent
          .absent .absent)
        (.cons
          (.jobj .absent (.present (.jstr "ABC".data)) .absent .absent .absent .absent
            .absent .absent)
          .nil))))))
    .absent .absent .absent

/-! ## AudioPlayer (src/unnamed/part_000 lines 63-224) -/

/-- `BLOCK_SIZE` from src/unnamed/part_000 line 7 (960 samples = 40ms at 24kHz). -/
def BLOCK_SIZE : Nat := 960

/-- The AudioPlayer state fields the claims concern.  `timer` / `prefillTimer`
model whether the respective JS timer handle is set; `idleTimestamp` (wall-clock
time) is not tracked — the flush tick instead takes the already-evaluated
idle-timeout test as a boolean input. -/
structure PState where
  buffers : List (List ℤ)
  bufferOffset : Nat
  started : Bool
  stopped : Bool
  timer : Bool
  prefillTimer : Bool
deriving DecidableEq, Repr

/-- The freshly constructed player (src/unnamed/part_000 lines 64-74). -/
def initPlayer : PState := ⟨[], 0, false, false, false, false⟩

/-- Total length of the queued segments. -/
def sumLen (bufs : List (List ℤ)) : Nat := (bufs.map List.length).sum

/-- `getBufferedSampleCount` from src/unnamed/part_000 lines 194-203: total of the
segment lengths minus the consumed offset, clamped at zero, and zero for an
empty queue. -/
def getBufferedSampleCount (s : PState) : Nat :=
  if s.buffers = [] then 0
  else
    let total : ℤ := (sumLen s.buffers : ℤ) - (s.bufferOffset : ℤ)
    if 0 < total then total.toNat else 0

/-- `ensureStarted` from src/unnamed/part_000 lines 76-89.  `startFails` is
whether the native `startSpeaker` (or the PortAudio load/initialization) call
throws; the exception is NOT caught, and it fires before `timer`/`started` are
assigned, so the state is returned unchanged alongside the error. -/
def ensureStarted (startFails : Bool) (s : PState) : PState × Option String :=
  if s.started then (s, none)
  else if startFails then (s, some "speaker start failed")
  else
    ({ s with
        timer := true, started := true, stopped := false, prefillTimer := false },
      none)

/-- `schedulePrefillStart` from src/unnamed/part_000 lines 205-216 (only the
timer-handle effect; the delayed callback is a separate event not modelled
here). -/
def schedulePrefillStart (s : PState) : PState :=
  if s.prefillTimer ∨ getBufferedSampleCount s = 0 then s
  else { s with prefillTimer := true }

/-- The `samples` argument of `enqueue`: an `Int16Array`, or any other value. -/
inductive EnqArg where
  | int16 (samples : List ℤ)
  | notInt16
deriving DecidableEq, Repr

/-- `enqueue` from src/unnamed/part_000 lines 91-108.  `prefillSamples` is the
constructor-time `PREFILL_SAMPLES` (env default 2400); an error returned in the
second component is an uncaught JS exception, with the first component the
object state at the moment it was thrown. -/
def enqueue (startFails : Bool) (prefillSamples : Nat) (arg : EnqArg)
    (sampleRate : JSNum) (s : PState) : PState × Option String :=
  if s.stopped then (s, none)
  else
    match arg with
    | .notInt16 => (s, some "AudioPlayer.enqueue は Int16Array を期待します")
    | .int16 samples =>
      let resampled := resampleLinear samples sampleRate PLAYBACK_SAMPLE_RATE
      let normalized := normalize resampled
      if normalized.length = 0 then (s, none)
      else
        let s1 := { s with buffers := s.buffers ++ [normalized] }
        if s1.started then (s1, none)
        else if prefillSamples = 0 ∨ prefillSamples ≤ getBufferedSampleCount s1 then
          ensureStarted startFails s1
        else (schedulePrefillStart s1, none)

/-- The `while` loop of `flush` (src/unnamed/part_000 lines 125-138), returning
the new queue, the new head offset, and the chunk contents copied so far.  In
the JS loop the only way the loop condition `filled < BLOCK_SIZE` fails after an
iteration that did not shift a segment is `toCopy = needed` (otherwise
`bufferOffset` reached the segment length and the segment was shifted), so the
non-shift arm below returns directly with the chunk full. -/
def flushLoop : List (List ℤ) → Nat → List ℤ → List (List ℤ) × Nat × List ℤ
  | [], offset, chunk => ([], offset, chunk)
  | cur :: rest, offset, chunk =>
    if chunk.length < BLOCK_SIZE then
      let remaining := cur.length - offset
      let needed := BLOCK_SIZE - chunk.length
      let toCopy := min remaining needed
      let chunk2 := chunk ++ (cur.drop offset).take toCopy
      let offset2 := offset + toCopy
      if cur.length ≤ offset2 then flushLoop rest 0 chunk2
      else (cur :: rest, offset2, chunk2)
    else (cur :: rest, offset, chunk)

/-- `pause` from src/unnamed/part_000 lines 151-165.  The `stopSpeaker` error is
swallowed by `try/catch (_)` regardless of `stopFails`, so no error is ever
returned; `idleTimestamp` and the `'stop'` notification are ambient. -/
def pause (stopFails : Bool) (s : PState) : PState × Option String :=
  if ¬ s.started ∨ s.stopped then (s, none)
  else ({ s with started := false, timer := false, prefillTimer := false }, none)

/-- `shutdown` from src/unnamed/part_000 lines 167-184: drops the queue, clears
the timers, swallows any `stopSpeaker` error, and marks the player inert. -/
def shutdown (stopFails : Bool) (s : PState) : PState × Option String :=
  ({ s with
      stopped := true, buffers := [], bufferOffset := 0, timer := false,
      prefillTimer := false, started := false },
    none)

/-- One `flush` tick (src/unnamed/part_000 lines 110-149): with an empty queue it
only tracks idleness (pausing once the idle timeout has expired — `idleExpired`
is that already-evaluated test); otherwise it drains up to `BLOCK_SIZE` samples
into a chunk (returned as the second component, zero-padded by the device push,
which may also be skipped when nothing was filled — neither affects the state). -/
def flushTick (stopFails idleExpired : Bool) (s : PState) : PState × List ℤ :=
  if s.buffers = [] then
    if s.started ∧ idleExpired then ((pause stopFails s).1, [])
    else (s, [])
  else
    let r := flushLoop s.buffers s.bufferOffset []
    ({ s with buffers := r.1, bufferOffset := r.2.1 }, r.2.2)

/-- One enqueue-or-flush operation on the player (the operations C1 quantifies
over), carrying the device/timing oracles as data. -/
inductive PlayerOp where
  | enq (startFails : Bool) (prefillSamples : Nat) (arg : EnqArg) (sampleRate : JSNum)
  | tick (stopFails idleExpired : Bool)
deriving Repr

/-- Apply one operation (exceptions discarded: the thrown-state is kept). -/
def applyOp (s : PState) : PlayerOp → PState
  | .enq sf pf arg rate => (enqueue sf pf arg rate s).1
  | .tick sf ie => (flushTick sf ie s).1

/-- Run a sequence of operations from a state. -/
def runOps (s : PState) (ops : List PlayerOp) : PState := ops.foldl applyOp s

/-- Run a sequence of flush ticks (each with its own oracle flags). -/
def applyTicks (s : PState) (flags : List (Bool × Bool)) : PState :=
  flags.foldl (fun t fl => (flushTick fl.1 fl.2 t).1) s

/-- The buffer-queue well-formedness invariant maintained by the player: an
empty queue has offset 0, queued segments are nonempty, and the offset stays
strictly inside the head segment. -/
def WfBuf (s : PState) : Prop :=
  (s.buffers = [] → s.bufferOffset = 0) ∧
  (∀ b ∈ s.buffers, b ≠ []) ∧
  (∀ b t, s.buffers = b :: t → s.bufferOffset < b.length)

/-! ## Theorems -/

theorem dropWhile_length_le (p : Char → Bool) (l : List Char) :
    (l.dropWhile p).length ≤ l.length := by
  induction l with
  | nil => simp [List.dropWhile]
  | cons a t ih =>
    by_cases h : p a
    · simp [List.dropWhile, h]; omega
    · simp [List.dropWhile, h]

theorem dropTrailWs_length_le (l : List Char) : (dropTrailWs l).length ≤ l.length := by
  unfold dropTrailWs
  have := dropWhile_length_le isJsWs l.reverse
  simpa using this

theorem trimL_length_le (l : List Char) : (trimL l).length ≤ l.length := by
  unfold trimL
  calc (dropTrailWs (l.dropWhile isJsWs)).length
      ≤ (l.dropWhile isJsWs).length := dropTrailWs_length_le _
    _ ≤ l.length := dropWhile_length_le _ _

theorem dropWhile_eq_nil_iff_all (p : Char → Bool) (l : List Char) :
    l.dropWhile p = [] ↔ ∀ c ∈ l, p c = true := by
  induction l with
  | nil => simp [List.dropWhile]
  | cons a t ih =>
    by_cases h : p a
    · simp [List.dropWhile, h, ih]
    · simp [List.dropWhile, h]

theorem all_dropWhile_iff_all (p : Char → Bool) (l : List Char) :
    (∀ c ∈ l.dropWhile p, p c = true) ↔ ∀ c ∈ l, p c = true := by
  constructor
  · intro h c hc
    rw [← List.takeWhile_append_dropWhile (p := p) (l := l)] at hc
    rcases List.mem_append.mp hc with h1 | h2
    · exact List.mem_takeWhile_imp h1
    · exact h c h2
  · intro h c hc
    exact h c (List.dropWhile_subset _ hc)

theorem trimL_eq_nil_iff_all (l : List Char) :
    trimL l = [] ↔ ∀ c ∈ l, isJsWs c = true := by
  unfold trimL dropTrailWs
  rw [List.reverse_eq_nil_iff, dropWhile_eq_nil_iff_all]
  constructor
  · intro h
    rw [← all_dropWhile_iff_all isJsWs l]
    intro c hc
    exact h c (by simpa using hc)
  · intro h c hc
    have hc' : c ∈ l.dropWhile isJsWs := by simpa using hc
    exact h c (List.dropWhile_subset _ hc')

/-- C7: `ensureTrailingPunctuation` trims the text and then (a) leaves it unchanged if its
last character is one of the fixed terminal punctuation marks 。．.?!！？、，, else (b)
appends 。 if it ends with one of the enumerated Japanese polite endings, else (c) appends
an ASCII period if its last character is a Latin letter or digit, else (d) leaves it
unchanged; in particular "hello" becomes "hello." and "done." is unchanged. -/
theorem c7_punctuation_normalization :
    (∀ (text : List Char) (last : Char), (trimL text).getLast? = some last →
      ((TRAILING_PUNCTUATION.contains last = true →
          ensureTrailingPunctuation text = trimL text) ∧
       (TRAILING_PUNCTUATION.contains last = false →
          hasJapanesePoliteEnding (trimL text) = true →
          ensureTrailingPunctuation text = trimL text ++ ['。']) ∧
       (TRAILING_PUNCTUATION.contains last = false →
          hasJapanesePoliteEnding (trimL text) = false →
          isLatinEnding last = true →
          ensureTrailingPunctuation text = trimL text ++ ['.']) ∧
       (TRAILING_PUNCTUATION.contains last = false →
          hasJapanesePoliteEnding (trimL text) = false →
          isLatinEnding last = false →
          ensureTrailingPunctuation text = trimL text))) ∧
    ensureTrailingPunctuation "hello".data = "hello.".data ∧
    ensureTrailingPunctuation "done.".data = "done.".data := by
  refine ⟨?_, by decide, by decide⟩
  intro text last h
  have htext : text ≠ [] := by
    intro he
    subst he
    simp [trimL, dropTrailWs, List.dropWhile] at h
  have htrim : trimL text ≠ [] := by
    intro he
    rw [he] at h
    simp at h
  refine ⟨?_, ?_, ?_, ?_⟩
  · intro hc
    have hc' : last ∈ TRAILING_PUNCTUATION := by simpa using hc
    simp [ensureTrailingPunctuation, htext, htrim, h, hc']
  · intro hc hp
    have hc' : last ∉ TRAILING_PUNCTUATION := by simpa using hc
    simp [ensureTrailingPunctuation, htext, htrim, h, hc', hp]
  · intro hc hp hl
    have hc' : last ∉ TRAILING_PUNCTUATION := by simpa using hc
    simp [ensureTrailingPunctuation, htext, htrim, h, hc', hp, hl]
  · intro hc hp hl
    have hc' : last ∉ TRAILING_PUNCTUATION := by simpa using hc
    simp [ensureTrailingPunctuation, htext, htrim, h, hc', hp, hl]

/-- Witness for C7 at the concrete input "hi". -/
theorem c7_punctuation_normalization_witness :
    (trimL "hi".data).getLast? = some 'i' ∧
    ensureTrailingPunctuation "hi".data = trimL "hi".data ++ ['.'] :=
  ⟨by decide,
   (c7_punctuation_normalization.1 "hi".data 'i' (by decide)).2.2.1
     (by decide) (by decide) (by decide)⟩

/-- C8: whenever appending an item makes the conversation longer than the history bound,
pruning rewrites it to all system-role items followed by the most recent `maxItems`
non-system items in their original relative order; for bound 4 and items
[sys, u1, a1, u2, a2, u3] the pruned result is [sys, a1, u2, a2, u3]. -/
theorem c8_pruning_result_shape :
    (∀ (maxItems : Nat) (conv : List ConvItem) (item : ConvItem),
        0 < maxItems →
        maxItems < (conv ++ [item]).length →
        addToConversation maxItems conv item =
          (conv ++ [item]).filter (fun it => isSystemItem it) ++
            ((conv ++ [item]).filter (fun it => !isSystemItem it)).drop
              (((conv ++ [item]).filter (fun it => !isSystemItem it)).length - maxItems)) ∧
    pruneConversation 4
        [sysItem, userItem 1, asstItem 1, userItem 2, asstItem 2, userItem 3] =
      [sysItem, asstItem 1, userItem 2, asstItem 2, userItem 3] := by
  constructor
  · intro maxItems conv item hpos hlen
    unfold addToConversation pruneConversation jsSliceLast
    rw [if_neg (by omega), if_neg (by omega)]
  · decide

/-- Witness for C8 at the claim's concrete instance (bound 4, six items). -/
theorem c8_pruning_result_shape_witness :
    0 < 4 ∧ 4 < ([sysItem, userItem 1, asstItem 1, userItem 2, asstItem 2] ++
        [userItem 3]).length ∧
    addToConversation 4 [sysItem, userItem 1, asstItem 1, userItem 2, asstItem 2]
        (userItem 3) =
      ([sysItem, userItem 1, asstItem 1, userItem 2, asstItem 2] ++ [userItem 3]).filter
          (fun it => isSystemItem it) ++
        (([sysItem, userItem 1, asstItem 1, userItem 2, asstItem 2] ++ [userItem 3]).filter
              (fun it => !isSystemItem it)).drop
          ((([sysItem, userItem 1, asstItem 1, userItem 2, asstItem 2] ++
                  [userItem 3]).filter (fun it => !isSystemItem it)).length - 4) :=
  ⟨by decide, by decide,
   c8_pruning_result_shape.1 4 [sysItem, userItem 1, asstItem 1, userItem 2, asstItem 2]
     (userItem 3) (by decide) (by decide)⟩

/-- C2 counterexample: in a well-paired conversation (a `function_call` immediately
followed by its matching `function_call_output`, then 19 user messages) pruning at the
default bound 20 retains the output but drops the call, so "a function_call item is
retained if and only if its matching function_call_output item is retained" fails. -/
theorem c2_counterexample_orphaned_output :
    wellPaired c2CexConv = true ∧
    ¬ (fcItem ∈ pruneConversation MAX_HISTORY_ITEMS c2CexConv ↔
       fcoItem ∈ pruneConversation MAX_HISTORY_ITEMS c2CexConv) := by
  decide

/-- C2 (amended): pruning never orphans a `function_call_output` of a retained
`function_call`: if the call (occurring nowhere at or after its output) is retained,
its output is retained too.  The converse direction of the original claim is false
(see the counterexample): the output can survive while the call is dropped. -/
theorem c2_amended_retained_call_keeps_output :
    ∀ (maxItems : Nat) (pre mid post : List ConvItem) (fc fco : ConvItem),
      isSystemItem fc = false → isSystemItem fco = false →
      fc ∉ fco :: post →
      fc ∈ pruneConversation maxItems (pre ++ fc :: mid ++ fco :: post) →
      fco ∈ pruneConversation maxItems (pre ++ fc :: mid ++ fco :: post) := by
  intro maxItems pre mid post fc fco hfc hfco hnot hmem
  by_cases hlen : (pre ++ fc :: mid ++ fco :: post).length ≤ maxItems
  · unfold pruneConversation
    rw [if_pos hlen]
    simp
  · unfold pruneConversation at hmem ⊢
    rw [if_neg hlen] at hmem ⊢
    have h1 : fc ∉ (pre ++ fc :: mid ++ fco :: post).filter (fun it => isSystemItem it) := by
      intro h
      have := (List.mem_filter.mp h).2
      rw [hfc] at this
      simp at this
    have h2 : fc ∈ jsSliceLast maxItems
        ((pre ++ fc :: mid ++ fco :: post).filter (fun it => !isSystemItem it)) := by
      rcases List.mem_append.mp hmem with h | h
      · exact absurd h h1
      · exact h
    set X := (pre.filter fun it => !isSystemItem it) ++
      fc :: (mid.filter fun it => !isSystemItem it) with hXdef
    set Y := post.filter (fun it => !isSystemItem it) with hYdef
    have hdec : (pre ++ fc :: mid ++ fco :: post).filter (fun it => !isSystemItem it) =
        X ++ fco :: Y := by
      simp [hXdef, hYdef, List.filter_append, List.filter_cons, hfc, hfco]
    obtain ⟨k, hk⟩ : ∃ k, jsSliceLast maxItems
        ((pre ++ fc :: mid ++ fco :: post).filter (fun it => !isSystemItem it)) =
        ((pre ++ fc :: mid ++ fco :: post).filter (fun it => !isSystemItem it)).drop k := by
      by_cases h : maxItems = 0
      · exact ⟨0, by simp [jsSliceLast, h]⟩
      · exact ⟨((pre ++ fc :: mid ++ fco :: post).filter
            (fun it => !isSystemItem it)).length - maxItems, by simp [jsSliceLast, h]⟩
    rw [hk, hdec] at h2
    refine List.mem_append_right _ ?_
    rw [hk, hdec]
    by_cases hkX : k ≤ X.length
    · rw [List.drop_append_of_le_length hkX]
      exact List.mem_append_right _ (List.mem_cons_self _ _)
    · exfalso
      have hk2 : k = X.length + (k - X.length) := by omega
      rw [hk2, List.drop_append] at h2
      have h3 : fc ∈ fco :: Y := List.drop_subset _ _ h2
      rcases List.mem_cons.mp h3 with h | h
      · exact hnot (h ▸ List.mem_cons_self _ _)
      · exact hnot (List.mem_cons_of_mem _ (List.mem_filter.mp h).1)

/-- Witness for the amended C2 at a concrete 3-item conversation with bound 2. -/
theorem c2_amended_witness :
    fcItem ∈ pruneConversation 2 [userItem 1, fcItem, fcoItem] ∧
    fcoItem ∈ pruneConversation 2 [userItem 1, fcItem, fcoItem] :=
  ⟨by decide,
   c2_amended_retained_call_keeps_output 2 [userItem 1] [] [] fcItem fcoItem
     (by decide) (by decide) (by decide) (by decide)⟩

/-- C3: advancing from DETECT to ACTIVE succeeds only when at least one dispatch target
exists and one is selected (targetIndex different from -1); when that precondition fails
the advance is downgraded to OFF with a user-visible reason message, while the OFF to
DETECT advance is always allowed regardless of targets. -/
theorem c3_mode_advance_guard :
    ∀ s : TuiState,
      (s.mode = Mode.detect →
        ((0 < s.targets.length → s.targetIndex ≠ -1 →
            (handleToggle s).1.mode = Mode.active ∧ (handleToggle s).2.1 = true) ∧
         (s.targets.length = 0 ∨ s.targetIndex = -1 →
            (handleToggle s).1.mode = Mode.off ∧ (handleToggle s).2.2 ≠ none))) ∧
      (s.mode = Mode.off →
        (handleToggle s).1.mode = Mode.detect ∧ (handleToggle s).2.1 = true) := by
  intro s
  obtain ⟨m, tg, ti⟩ := s
  dsimp only
  constructor
  · intro hm
    subst hm
    constructor
    · intro hlen hidx
      have h0 : ¬ tg.length = 0 := by omega
      simp +decide [handleToggle, applyMode, h0, hidx]
    · intro hcond
      rcases hcond with h0 | hidx
      · simp +decide [handleToggle, applyMode, h0]
      · by_cases h0 : tg.length = 0
        · simp +decide [handleToggle, applyMode, h0]
        · simp +decide [handleToggle, applyMode, h0, hidx]
  · intro hm
    subst hm
    simp +decide [handleToggle, applyMode]

/-- Witness for C3: from DETECT with one selected target the toggle reaches ACTIVE;
from DETECT with no targets it downgrades to OFF with a reason; from OFF it always
reaches DETECT. -/
theorem c3_mode_advance_guard_witness :
    ((handleToggle ⟨Mode.detect, ["term-1"], 0⟩).1.mode = Mode.active ∧
      (handleToggle ⟨Mode.detect, ["term-1"], 0⟩).2.1 = true) ∧
    ((handleToggle ⟨Mode.detect, [], -1⟩).1.mode = Mode.off ∧
      (handleToggle ⟨Mode.detect, [], -1⟩).2.2 ≠ none) ∧
    ((handleToggle ⟨Mode.off, [], -1⟩).1.mode = Mode.detect ∧
      (handleToggle ⟨Mode.off, [], -1⟩).2.1 = true) :=
  ⟨((c3_mode_advance_guard ⟨Mode.detect, ["term-1"], 0⟩).1 rfl).1 (by decide) (by decide),
   ((c3_mode_advance_guard ⟨Mode.detect, [], -1⟩).1 rfl).2 (Or.inl rfl),
   (c3_mode_advance_guard ⟨Mode.off, [], -1⟩).2 rfl⟩

/-- C4 counterexample: resampling the one-sample input [5] from 48000 Hz to 24000 Hz
yields one output sample, not floor(1 / (48000/24000)) = 0 as the claim's length formula
predicts (the code takes `Math.max(1, ...)` of that floor). -/
theorem c4_counterexample_length :
    (resampleLinear [5] (JSNum.fin 48000) 24000).length ≠
        (((([5] : List ℤ).length : ℤ) * 24000).fdiv 48000).toNat ∧
    (resampleLinear [5] (JSNum.fin 48000) 24000).length = 1 ∧
    (((([5] : List ℤ).length : ℤ) * 24000).fdiv 48000).toNat = 0 := by
  refine ⟨by decide, by decide, by decide⟩

/-- C4 (amended): `resampleLinear` returns the input unchanged when the (positive)
source rate equals the target rate; a non-finite or nonpositive source rate is treated
as the fixed 24000 Hz output rate, a no-op when resampling to that rate; and when the
rates differ the output length is `max 1 (floor (inputLength / (fromRate/toRate)))`
— written as the integer floor division `(inputLength * toRate).fdiv fromRate` —
where the original claim omitted the `max 1` clamp. -/
theorem c4_resampling_contract :
    (∀ (xs : List ℤ) (z : ℤ), 0 < z → resampleLinear xs (JSNum.fin z) z = xs) ∧
    (∀ (xs : List ℤ) (r : JSNum), r.isFiniteNum = false →
      resampleLinear xs r PLAYBACK_SAMPLE_RATE = xs) ∧
    (∀ (xs : List ℤ) (z : ℤ), z ≤ 0 →
      resampleLinear xs (JSNum.fin z) PLAYBACK_SAMPLE_RATE = xs) ∧
    (∀ (xs : List ℤ) (z toRate : ℤ), 0 < z → z ≠ toRate →
      (resampleLinear xs (JSNum.fin z) toRate).length =
        max 1 (((xs.length : ℤ) * toRate).fdiv z).toNat) := by
  refine ⟨?_, ?_, ?_, ?_⟩
  · intro xs z hz
    simp [resampleLinear, not_le.mpr hz]
  · intro xs r hr
    cases r with
    | nan => simp [resampleLinear]
    | posInf => simp [resampleLinear]
    | negInf => simp [resampleLinear]
    | fin z => simp [JSNum.isFiniteNum] at hr
  · intro xs z hz
    simp [resampleLinear, hz]
  · intro xs z toRate hz hne
    have h1 : (if z ≤ 0 then PLAYBACK_SAMPLE_RATE else z) = z := if_neg (not_le.mpr hz)
    simp only [resampleLinear, h1, if_neg hne, List.length_map, List.length_range]

/-- Witness for C4 at the two-sample input [100, 200], 48000 Hz to 24000 Hz. -/
theorem c4_resampling_contract_witness :
    (0 : ℤ) < 48000 ∧ (48000 : ℤ) ≠ 24000 ∧
    (resampleLinear [100, 200] (JSNum.fin 48000) 24000).length =
      max 1 ((((([100, 200] : List ℤ).length : ℤ)) * 24000).fdiv 48000).toNat :=
  ⟨by decide, by decide,
   c4_resampling_contract.2.2.2 [100, 200] 48000 24000 (by decide) (by decide)⟩

theorem fallbackChunksFuel_mem_length_le :
    ∀ (fuel : Nat) (t : List Char),
      ∀ seg ∈ fallbackChunksFuel fuel t, seg.length ≤ MAX_SEGMENT_CHARS := by
  intro fuel
  induction fuel with
  | zero =>
    intro t seg hseg
    cases t <;> simp [fallbackChunksFuel] at hseg
  | succ n ih =>
    intro t seg hseg
    cases t with
    | nil => simp [fallbackChunksFuel] at hseg
    | cons a rest =>
      rw [fallbackChunksFuel] at hseg
      have hchunk : (trimL ((a :: rest).take MAX_SEGMENT_CHARS)).length ≤
          MAX_SEGMENT_CHARS := by
        calc (trimL ((a :: rest).take MAX_SEGMENT_CHARS)).length
            ≤ ((a :: rest).take MAX_SEGMENT_CHARS).length := trimL_length_le _
          _ ≤ MAX_SEGMENT_CHARS := by
              simp only [List.length_take]
              omega
      by_cases hc : trimL ((a :: rest).take MAX_SEGMENT_CHARS) = []
      · simp only [if_pos hc] at hseg
        exact ih _ seg hseg
      · simp only [if_neg hc] at hseg
        rcases List.mem_cons.mp hseg with h1 | h1
        · exact h1 ▸ hchunk
        · exact ih _ seg h1

theorem fallbackChunksFuel_eq_nil_all_ws :
    ∀ (fuel : Nat) (t : List Char), t.length ≤ fuel → fallbackChunksFuel fuel t = [] →
      ∀ c ∈ t, isJsWs c = true := by
  intro fuel
  induction fuel with
  | zero =>
    intro t ht _ c hc
    have : t = [] := List.length_eq_zero.mp (Nat.le_zero.mp ht)
    subst this
    simp at hc
  | succ n ih =>
    intro t ht hnil c hc
    cases t with
    | nil => simp at hc
    | cons a rest =>
      rw [fallbackChunksFuel] at hnil
      by_cases hch : trimL ((a :: rest).take MAX_SEGMENT_CHARS) = []
      · simp only [if_pos hch] at hnil
        have htake : ∀ x ∈ (a :: rest).take MAX_SEGMENT_CHARS, isJsWs x = true :=
          (trimL_eq_nil_iff_all _).mp hch
        have hdrop : ∀ x ∈ (a :: rest).drop MAX_SEGMENT_CHARS, isJsWs x = true := by
          refine ih _ ?_ hnil
          have hM : 0 < MAX_SEGMENT_CHARS := by decide
          have := ht
          simp only [List.length_cons] at this
          simp only [List.length_drop, List.length_cons]
          omega
        rw [← List.take_append_drop MAX_SEGMENT_CHARS (a :: rest)] at hc
        rcases List.mem_append.mp hc with h1 | h1
        · exact htake c h1
        · exact hdrop c h1
      · simp only [if_neg hch] at hnil
        simp at hnil

theorem fallbackChunk_mem_length_le (t : List Char) :
    ∀ seg ∈ fallbackChunk t, seg.length ≤ MAX_SEGMENT_CHARS := by
  intro seg hseg
  unfold fallbackChunk at hseg
  by_cases h : fallbackChunks t = []
  · simp only [h, if_pos rfl] at hseg
    rcases List.mem_singleton.mp hseg with rfl
    have : trimL t = [] :=
      (trimL_eq_nil_iff_all t).mpr
        (fallbackChunksFuel_eq_nil_all_ws t.length t le_rfl h)
    simp [this]
  · simp only [if_neg h] at hseg
    exact fallbackChunksFuel_mem_length_le t.length t seg hseg

theorem segLoop_mem_length_le :
    ∀ (tokens : List (List Char)) (current : List Char),
      (trimL current).length ≤ MAX_SEGMENT_CHARS →
      ∀ seg ∈ segLoop tokens current, seg.length ≤ MAX_SEGMENT_CHARS := by
  intro tokens
  induction tokens with
  | nil =>
    intro current hcur seg hseg
    rw [segLoop] at hseg
    by_cases h : trimL current = []
    · simp [h] at hseg
    · simp only [if_neg h] at hseg
      rcases List.mem_singleton.mp hseg with rfl
      exact hcur
  | cons token rest ih =>
    intro current hcur seg hseg
    have hnil : (trimL ([] : List Char)).length ≤ MAX_SEGMENT_CHARS := by decide
    have hcur0 : ∀ s ∈ ([trimL current] : List (List Char)),
        s.length ≤ MAX_SEGMENT_CHARS := by
      intro s hs
      rcases List.mem_singleton.mp hs with rfl
      exact hcur
    rw [segLoop] at hseg
    by_cases htok : token = []
    · rw [if_pos htok] at hseg
      exact ih current hcur seg hseg
    · rw [if_neg htok] at hseg
      dsimp only at hseg
      by_cases hP : shouldBreakBefore (trimL token) ∧ trimL current ≠ []
      · simp only [if_pos hP] at hseg
        by_cases hbig : MAX_SEGMENT_CHARS < token.length
        · simp only [if_pos hbig, if_pos (show trimL ([] : List Char) = [] from rfl)]
            at hseg
          rcases List.mem_append.mp hseg with h1 | h1
          · rcases List.mem_append.mp h1 with h2 | h2
            · exact hcur0 seg h2
            · exact fallbackChunk_mem_length_le token seg h2
          · exact ih [] hnil seg h1
        · simp only [if_neg hbig] at hseg
          by_cases hmax : MAX_SEGMENT_CHARS < (trimL ([] ++ token)).length
          · simp only [if_pos hmax, if_pos (show trimL ([] : List Char) = [] from rfl)]
              at hseg
            rcases List.mem_append.mp hseg with h1 | h1
            · exact hcur0 seg h1
            · refine ih token ?_ seg h1
              calc (trimL token).length ≤ token.length := trimL_length_le _
                _ ≤ MAX_SEGMENT_CHARS := Nat.not_lt.mp hbig
          · simp only [if_neg hmax] at hseg
            by_cases htgt : TARGET_SEGMENT_CHARS ≤ (trimL ([] ++ token)).length ∨
                shouldBreakAfter (trimL token)
            · simp only [if_pos htgt] at hseg
              rcases List.mem_append.mp hseg with h1 | h1
              · rcases List.mem_append.mp h1 with h2 | h2
                · exact hcur0 seg h2
                · rcases List.mem_singleton.mp h2 with rfl
                  exact Nat.not_lt.mp hmax
              · exact ih [] hnil seg h1
            · simp only [if_neg htgt] at hseg
              rcases List.mem_append.mp hseg with h1 | h1
              · exact hcur0 seg h1
              · exact ih ([] ++ token) (Nat.not_lt.mp hmax) seg h1
      · simp only [if_neg hP] at hseg
        by_cases hbig : MAX_SEGMENT_CHARS < token.length
        · simp only [if_pos hbig] at hseg
          by_cases hc : trimL current = []
          · simp only [if_pos hc] at hseg
            rcases List.mem_append.mp hseg with h1 | h1
            · rcases List.mem_append.mp h1 with h2 | h2
              · simp at h2
              · exact fallbackChunk_mem_length_le token seg h2
            · exact ih current hcur seg h1
          · simp only [if_neg hc] at hseg
            rcases List.mem_append.mp hseg with h1 | h1
            · rcases List.mem_append.mp h1 with h2 | h2
              · rcases List.mem_append.mp h2 with h3 | h3
                · simp at h3
                · exact hcur0 seg h3
              · exact fallbackChunk_mem_length_le token seg h2
            · exact ih [] hnil seg h1
        · simp only [if_neg hbig] at hseg
          by_cases hmax : MAX_SEGMENT_CHARS < (trimL (current ++ token)).length
          · simp only [if_pos hmax] at hseg
            have hrec : ∀ s ∈ segLoop rest token, s.length ≤ MAX_SEGMENT_CHARS := by
              refine ih token ?_
              calc (trimL token).length ≤ token.length := trimL_length_le _
                _ ≤ MAX_SEGMENT_CHARS := Nat.not_lt.mp hbig
            by_cases hc : trimL current = []
            · simp only [if_pos hc] at hseg
              rcases List.mem_append.mp hseg with h1 | h1
              · simp at h1
              · exact hrec seg h1
            · simp only [if_neg hc] at hseg
              rcases List.mem_append.mp hseg with h1 | h1
              · rcases List.mem_append.mp h1 with h2 | h2
                · simp at h2
                · exact hcur0 seg h2
              · exact hrec seg h1
          · simp only [if_neg hmax] at hseg
            by_cases htgt : TARGET_SEGMENT_CHARS ≤ (trimL (current ++ token)).length ∨
                shouldBreakAfter (trimL token)
            · simp only [if_pos htgt] at hseg
              rcases List.mem_append.mp hseg with h1 | h1
              · rcases List.mem_append.mp h1 with h2 | h2
                · simp at h2
                · rcases List.mem_singleton.mp h2 with rfl
                  exact Nat.not_lt.mp hmax
              · exact ih [] hnil seg h1
            · simp only [if_neg htgt] at hseg
              rcases List.mem_append.mp hseg with h1 | h1
              · simp at h1
              · exact ih (current ++ token) (Nat.not_lt.mp hmax) seg h1

/-- C5 counterexample: for the input of 69 letters, a period and one more letter,
`splitIntoSegments` returns a single 71-character segment — `mergeShortSegments`
appends the short trailing segment to a 70-character predecessor without re-checking
the maximum — so "every segment has length at most MAX_SEGMENT_CHARS (70)" fails. -/
theorem c5_counterexample_segment_exceeds_max :
    ¬ (∀ seg ∈ splitIntoSegments c5CexInput, seg.length ≤ MAX_SEGMENT_CHARS) ∧
    (splitIntoSegments c5CexInput).map List.length = [71] :=
  ⟨by decide, by decide⟩

/-- C5 (amended): every segment produced before the final short-segment merge is at
most `MAX_SEGMENT_CHARS` long — both the segments emitted by the token-accumulation
loop and the `normalizedSegments` list handed to `mergeShortSegments`.  Only the
merge step (which folds segments of length at most 10 into their predecessor) can
exceed the bound, as the counterexample shows. -/
theorem c5_amended_premerge_bound :
    (∀ (text : List Char), ∀ seg ∈ segLoop (tokenize (trimL (collapseWs text))) [],
      seg.length ≤ MAX_SEGMENT_CHARS) ∧
    (∀ (text : List Char), ∀ seg ∈ preMergeSegments text,
      seg.length ≤ MAX_SEGMENT_CHARS) := by
  constructor
  · intro text seg hseg
    exact segLoop_mem_length_le _ [] (by decide) seg hseg
  · intro text seg hseg
    unfold preMergeSegments at hseg
    by_cases h0 : text = []
    · simp [h0] at hseg
    · rw [if_neg h0] at hseg
      dsimp only at hseg
      by_cases h1 : trimL (collapseWs text) = []
      · simp [h1] at hseg
      · rw [if_neg h1] at hseg
        rcases List.mem_flatMap.mp hseg with ⟨s, hs, hseg2⟩
        by_cases hbig : MAX_SEGMENT_CHARS < s.length
        · rw [if_pos hbig] at hseg2
          exact fallbackChunk_mem_length_le s seg hseg2
        · rw [if_neg hbig] at hseg2
          rcases List.mem_singleton.mp hseg2 with rfl
          exact Nat.not_lt.mp hbig

/-- Witness for the amended C5: the 70-character pre-merge segment of the
counterexample input is within the bound. -/
theorem c5_amended_premerge_bound_witness :
    (List.replicate 69 'a' ++ ['.']) ∈ preMergeSegments c5CexInput ∧
    (List.replicate 69 'a' ++ ['.']).length ≤ MAX_SEGMENT_CHARS :=
  ⟨by decide, c5_amended_premerge_bound.2 c5CexInput _ (by decide)⟩

theorem consider_rel (value : List Char) :
    ∀ (sts : List (List Char) × List (List Char)),
      consider (sts.1, sts.2.foldl pickLonger []) value =
        ((specConsider sts value).1, (specConsider sts value).2.foldl pickLonger []) := by
  intro sts
  unfold consider specConsider
  dsimp only
  by_cases h1 : trimL value = []
  · simp [h1]
  · simp only [if_neg h1]
    by_cases h2 : sts.1.contains (trimL value)
    · have h2m : trimL value ∈ sts.1 := by simpa using h2
      simp [h2m]
    · have h2m : trimL value ∉ sts.1 := by simpa using h2
      simp [h2m, List.foldl_append, pickLonger]

theorem considerField_rel (f : JSField) :
    ∀ (sts : List (List Char) × List (List Char)),
      considerField (sts.1, sts.2.foldl pickLonger []) f =
        ((specConsiderField sts f).1,
          (specConsiderField sts f).2.foldl pickLonger []) := by
  intro sts
  cases f with
  | absent => rfl
  | present v =>
    cases v with
    | jstr s => exact consider_rel s sts
    | jnull => rfl
    | jbool b => rfl
    | jnum n => rfl
    | jarr l => rfl
    | jobj t x v p d c i its => rfl

mutual
theorem visit_rel (v : JSVal) :
    ∀ (sts : List (List Char) × List (List Char)),
      visit (sts.1, sts.2.foldl pickLonger []) v =
        ((specVisit sts v).1, (specVisit sts v).2.foldl pickLonger []) := by
  intro sts
  cases v with
  | jnull => rfl
  | jbool b => rfl
  | jnum n => rfl
  | jstr s =>
    by_cases hs : s = []
    · simp [visit, specVisit, hs]
    · simp only [visit, specVisit, if_neg hs]
      exact consider_rel s sts
  | jarr elems =>
    simp only [visit, specVisit]
    exact visitArr_rel elems sts
  | jobj t x v p d c i its =>
    simp only [visit, specVisit]
    rw [considerField_rel, considerField_rel, considerField_rel, visitField_rel,
      visitField_rel, visitField_rel, visitField_rel, visitItems_rel]

theorem visitArr_rel (l : JSArr) :
    ∀ (sts : List (List Char) × List (List Char)),
      visitArr (sts.1, sts.2.foldl pickLonger []) l =
        ((specVisitArr sts l).1, (specVisitArr sts l).2.foldl pickLonger []) := by
  intro sts
  cases l with
  | nil => rfl
  | cons x xs =>
    simp only [visitArr, specVisitArr]
    rw [visit_rel x sts]
    exact visitArr_rel xs (specVisit sts x)

theorem visitField_rel (f : JSField) :
    ∀ (sts : List (List Char) × List (List Char)),
      visitField (sts.1, sts.2.foldl pickLonger []) f =
        ((specVisitField sts f).1, (specVisitField sts f).2.foldl pickLonger []) := by
  intro sts
  cases f with
  | absent => rfl
  | present v =>
    simp only [visitField, specVisitField]
    exact visit_rel v sts

theorem visitItems_rel (f : JSField) :
    ∀ (sts : List (List Char) × List (List Char)),
      visitItems (sts.1, sts.2.foldl pickLonger []) f =
        ((specVisitItems sts f).1, (specVisitItems sts f).2.foldl pickLonger []) := by
  intro sts
  cases f with
  | absent => rfl
  | present v =>
    cases v with
    | jarr l =>
      simp only [visitItems, specVisitItems]
      exact visitArr_rel l sts
    | jnull => rfl
    | jbool b => rfl
    | jnum n => rfl
    | jstr s => rfl
    | jobj t x v p d c i its => rfl
end

theorem foldl_pickLonger_spec :
    ∀ (l : List (List Char)) (b : List Char),
      b.length ≤ (l.foldl pickLonger b).length ∧
      (∀ c ∈ l, c.length ≤ (l.foldl pickLonger b).length) ∧
      (l.foldl pickLonger b = b ∨ l.foldl pickLonger b ∈ l) := by
  intro l
  induction l with
  | nil =>
    intro b
    simp
  | cons a t ih =>
    intro b
    simp only [List.foldl_cons]
    have h := ih (pickLonger b a)
    have hba : b.length ≤ (pickLonger b a).length := by
      unfold pickLonger
      split <;> omega
    have haa : a.length ≤ (pickLonger b a).length := by
      unfold pickLonger
      split <;> omega
    refine ⟨le_trans hba h.1, ?_, ?_⟩
    · intro c hc
      rcases List.mem_cons.mp hc with rfl | hc2
      · exact le_trans haa h.1
      · exact h.2.1 c hc2
    · rcases h.2.2 with heq | hmem
      · rw [heq]
        unfold pickLonger
        split
        · exact Or.inr (List.mem_cons_self _ _)
        · exact Or.inl rfl
      · exact Or.inr (List.mem_cons_of_mem _ hmem)

/-- C6: `extractTranscript` is the collect-then-select algorithm of the spec: it
equals the left fold of the longest/last-seen selection over the deduplicated
trimmed strings of the depth-first traversal (through arrays, the string fields
transcript/text/value, and recursively through partial/delta/content/item/items);
consequently the result is at least as long as every candidate, is the empty
string or one of the candidates (so empty when no candidate exists), and on the
example event with delta.items carrying transcript "A" and text "ABC" it
returns "ABC". -/
theorem c6_extractor_refines_spec :
    (∀ m : JSVal, extractTranscript m = specExtractTranscript m) ∧
    (∀ m : JSVal, ∀ c ∈ candidates m, c.length ≤ (extractTranscript m).length) ∧
    (∀ m : JSVal, extractTranscript m = [] ∨ extractTranscript m ∈ candidates m) ∧
    extractTranscript c6Example = "ABC".data := by
  have key : ∀ m : JSVal, extractTranscript m = (candidates m).foldl pickLonger [] := by
    intro m
    exact congrArg Prod.snd (visit_rel m ([], []))
  refine ⟨?_, ?_, ?_, by decide⟩
  · intro m
    rw [key m]
    rfl
  · intro m c hc
    rw [key m]
    exact (foldl_pickLonger_spec (candidates m) []).2.1 c hc
  · intro m
    rw [key m]
    exact (foldl_pickLonger_spec (candidates m) []).2.2

/-- Witness for C6: on the example event, "A" is a candidate and the extracted
transcript is at least as long. -/
theorem c6_extractor_refines_spec_witness :
    "A".data ∈ candidates c6Example ∧
    ("A".data).length ≤ (extractTranscript c6Example).length :=
  ⟨by decide, c6_extractor_refines_spec.2.1 c6Example "A".data (by decide)⟩

/-- C9 counterexample: enqueueing a valid one-sample Int16Array into a fresh player
whose device start call fails (prefill disabled, so the enqueue triggers
`ensureStarted` immediately) returns the start error to the caller — `startSpeaker`
is not wrapped in try/catch — refuting "any error raised by the device start/stop
calls is caught and logged inside the engine and is never propagated to the
caller". -/
theorem c9_counterexample_start_error_propagates :
    (enqueue true 0 (EnqArg.int16 [30000]) (JSNum.fin 24000) initPlayer).2 =
      some "speaker start failed" := by
  decide

/-- C9 (amended): errors from the device stop call are caught (silently swallowed
by `try/catch (_)`, not logged) in both `pause` and `shutdown` and never reach the
caller; but errors from the device start call in `ensureStarted` — including
enqueue-triggered starts — are not caught and propagate. -/
theorem c9_amended_stop_swallowed_start_propagates :
    (∀ (s : PState) (stopFails : Bool), (pause stopFails s).2 = none) ∧
    (∀ (s : PState) (stopFails : Bool), (shutdown stopFails s).2 = none) ∧
    (∀ s : PState, s.started = false → (ensureStarted true s).2 ≠ none) := by
  refine ⟨?_, ?_, ?_⟩
  · intro s sf
    unfold pause
    split <;> rfl
  · intro s sf
    rfl
  · intro s hs
    simp [ensureStarted, hs]

/-- Witness for the amended C9 at the fresh player. -/
theorem c9_amended_witness :
    (pause true initPlayer).2 = none ∧
    (shutdown true initPlayer).2 = none ∧
    initPlayer.started = false ∧
    (ensureStarted true initPlayer).2 ≠ none :=
  ⟨c9_amended_stop_swallowed_start_propagates.1 initPlayer true,
   c9_amended_stop_swallowed_start_propagates.2.1 initPlayer true,
   rfl,
   c9_amended_stop_swallowed_start_propagates.2.2 initPlayer rfl⟩

/-- C10: when the player is not shut down, calling `enqueue` with a non-Int16Array
argument throws an Error and leaves the state (in particular the buffer queue)
unchanged; after shutdown the same call returns silently with no effect, because
the `stopped` check precedes the `instanceof` check. -/
theorem c10_enqueue_type_check :
    (∀ (s : PState) (sf : Bool) (pf : Nat) (rate : JSNum), s.stopped = false →
      enqueue sf pf EnqArg.notInt16 rate s =
        (s, some "AudioPlayer.enqueue は Int16Array を期待します")) ∧
    (∀ (s : PState) (sf : Bool) (pf : Nat) (rate : JSNum), s.stopped = true →
      enqueue sf pf EnqArg.notInt16 rate s = (s, none)) := by
  constructor <;> intro s sf pf rate h <;> simp [enqueue, h]

/-- Witness for C10: a fresh player throws on a non-Int16Array argument; after
shutdown the same call is a silent no-op. -/
theorem c10_enqueue_type_check_witness :
    initPlayer.stopped = false ∧
    enqueue false 0 EnqArg.notInt16 (JSNum.fin 24000) initPlayer =
      (initPlayer, some "AudioPlayer.enqueue は Int16Array を期待します") ∧
    (shutdown false initPlayer).1.stopped = true ∧
    enqueue false 0 EnqArg.notInt16 (JSNum.fin 24000) (shutdown false initPlayer).1 =
      ((shutdown false initPlayer).1, none) :=
  ⟨rfl,
   c10_enqueue_type_check.1 initPlayer false 0 (JSNum.fin 24000) rfl,
   rfl,
   c10_enqueue_type_check.2 (shutdown false initPlayer).1 false 0 (JSNum.fin 24000) rfl⟩

theorem normalize_length (xs : List ℤ) : (normalize xs).length = xs.length := by
  unfold normalize
  dsimp only
  split
  · rfl
  · simp

theorem sumLen_cons (b : List ℤ) (t : List (List ℤ)) :
    sumLen (b :: t) = b.length + sumLen t := by
  simp [sumLen]

theorem wfBuf_init : WfBuf initPlayer := by
  refine ⟨fun _ => rfl, ?_, ?_⟩ <;> simp [initPlayer]

theorem wfBuf_of_same_buffers (s s' : PState) (hb : s'.buffers = s.buffers)
    (ho : s'.bufferOffset = s.bufferOffset) (h : WfBuf s) : WfBuf s' := by
  obtain ⟨h1, h2, h3⟩ := h
  refine ⟨?_, ?_, ?_⟩
  · intro he
    rw [ho]
    exact h1 (hb ▸ he)
  · intro b hbm
    exact h2 b (hb ▸ hbm)
  · intro b t heq
    rw [ho]
    exact h3 b t (hb ▸ heq)

theorem getCount_eq (s : PState) (h : WfBuf s) :
    (getBufferedSampleCount s : ℤ) = (sumLen s.buffers : ℤ) - s.bufferOffset := by
  obtain ⟨h1, h2, h3⟩ := h
  unfold getBufferedSampleCount
  by_cases hb : s.buffers = []
  · simp [hb, h1 hb, sumLen]
  · rcases hbl : s.buffers with _ | ⟨b, t⟩
    · exact absurd hbl hb
    · have hlt := h3 b t hbl
      have hble : b.length ≤ sumLen s.buffers := by
        rw [hbl, sumLen_cons]
        omega
      have hpos : (0 : ℤ) < (sumLen s.buffers : ℤ) - s.bufferOffset := by omega
      rw [← hbl]
      simp only [if_neg hb]
      rw [if_pos hpos, Int.toNat_of_nonneg (le_of_lt hpos)]

theorem wfBuf_push (s : PState) (xs : List ℤ) (hxs : xs ≠ []) (h : WfBuf s) :
    WfBuf { s with buffers := s.buffers ++ [xs] } := by
  obtain ⟨h1, h2, h3⟩ := h
  refine ⟨?_, ?_, ?_⟩
  · intro he
    simp at he
  · intro b hbm
    rcases List.mem_append.mp hbm with hm | hm
    · exact h2 b hm
    · rcases List.mem_singleton.mp hm with rfl
      exact hxs
  · intro b t heq
    dsimp only at heq ⊢
    rcases hbl : s.buffers with _ | ⟨b0, t0⟩
    · rw [hbl] at heq
      simp at heq
      rw [h1 hbl]
      rcases heq with ⟨rfl, _⟩
      exact List.length_pos.mpr hxs
    · rw [hbl] at heq
      simp at heq
      rcases heq with ⟨rfl, _⟩
      exact h3 _ _ hbl

theorem wfBuf_enqueue (sf : Bool) (pf : Nat) (arg : EnqArg) (rate : JSNum)
    (s : PState) (h : WfBuf s) : WfBuf (enqueue sf pf arg rate s).1 := by
  unfold enqueue
  by_cases hst : s.stopped
  · simp only [if_pos hst]
    exact h
  · simp only [if_neg hst]
    cases arg with
    | notInt16 => exact h
    | int16 samples =>
      dsimp only
      by_cases hn : (normalize (resampleLinear samples rate PLAYBACK_SAMPLE_RATE)).length = 0
      · simp only [if_pos hn]
        exact h
      · simp only [if_neg hn]
        have hne : normalize (resampleLinear samples rate PLAYBACK_SAMPLE_RATE) ≠ [] := by
          intro he
          exact hn (by rw [he]; rfl)
        have hwf1 := wfBuf_push s _ hne h
        split
        · exact hwf1
        · split
          · unfold ensureStarted
            split
            · exact hwf1
            · split
              · exact hwf1
              · exact wfBuf_of_same_buffers _ _ rfl rfl hwf1
          · unfold schedulePrefillStart
            split
            · exact hwf1
            · exact wfBuf_of_same_buffers _ _ rfl rfl hwf1

theorem flushLoop_spec :
    ∀ (bufs : List (List ℤ)) (offset : Nat) (chunk : List ℤ),
      (∀ b ∈ bufs, b ≠ []) →
      (bufs = [] → offset = 0) →
      (∀ b t, bufs = b :: t → offset < b.length) →
      chunk.length ≤ BLOCK_SIZE →
      (∀ b ∈ (flushLoop bufs offset chunk).1, b ≠ []) ∧
      ((flushLoop bufs offset chunk).1 = [] → (flushLoop bufs offset chunk).2.1 = 0) ∧
      (∀ b t, (flushLoop bufs offset chunk).1 = b :: t →
        (flushLoop bufs offset chunk).2.1 < b.length) ∧
      ((sumLen (flushLoop bufs offset chunk).1 : ℤ) -
          (flushLoop bufs offset chunk).2.1 =
        ((sumLen bufs : ℤ) - offset) -
          min ((BLOCK_SIZE : ℤ) - chunk.length) ((sumLen bufs : ℤ) - offset)) := by
  intro bufs
  induction bufs with
  | nil =>
    intro offset chunk h1 h2 h3 h4
    have ho := h2 rfl
    subst ho
    refine ⟨by simp [flushLoop], fun _ => rfl, by simp [flushLoop], ?_⟩
    have hsum : sumLen ([] : List (List ℤ)) = 0 := rfl
    simp only [flushLoop, hsum]
    have h4z : (chunk.length : ℤ) ≤ (BLOCK_SIZE : ℤ) := by exact_mod_cast h4
    omega
  | cons cur rest ih =>
    intro offset chunk h1 h2 h3 h4
    have hlt : offset < cur.length := h3 cur rest rfl
    have hsum : sumLen (cur :: rest) = cur.length + sumLen rest := sumLen_cons cur rest
    by_cases hfull : chunk.length < BLOCK_SIZE
    · -- loop body runs
      have hcopylen : ((cur.drop offset).take
          (min (cur.length - offset) (BLOCK_SIZE - chunk.length))).length =
          min (cur.length - offset) (BLOCK_SIZE - chunk.length) := by
        simp only [List.length_take, List.length_drop]
        omega
      by_cases hshift : cur.length ≤
          offset + min (cur.length - offset) (BLOCK_SIZE - chunk.length)
      · -- the head segment is exhausted and shifted
        have heq : flushLoop (cur :: rest) offset chunk =
            flushLoop rest 0
              (chunk ++ (cur.drop offset).take
                (min (cur.length - offset) (BLOCK_SIZE - chunk.length))) := by
          rw [flushLoop]
          simp only [if_pos hfull, if_pos hshift]
        have hch2 : (chunk ++ (cur.drop offset).take
            (min (cur.length - offset) (BLOCK_SIZE - chunk.length))).length =
            chunk.length + min (cur.length - offset) (BLOCK_SIZE - chunk.length) := by
          simp only [List.length_append, hcopylen]
        have ihs := ih 0
          (chunk ++ (cur.drop offset).take
            (min (cur.length - offset) (BLOCK_SIZE - chunk.length)))
          (fun b hb => h1 b (List.mem_cons_of_mem _ hb))
          (fun _ => rfl)
          (fun b t het => List.length_pos.mpr (h1 b (het ▸ List.mem_cons_of_mem _
            (List.mem_cons_self _ _))))
          (by omega)
        rw [heq]
        refine ⟨ihs.1, ihs.2.1, ihs.2.2.1, ?_⟩
        have harith := ihs.2.2.2
        rw [hch2] at harith
        omega
      · -- the loop exits with the chunk full
        have heq : flushLoop (cur :: rest) offset chunk =
            (cur :: rest,
              offset + min (cur.length - offset) (BLOCK_SIZE - chunk.length),
              chunk ++ (cur.drop offset).take
                (min (cur.length - offset) (BLOCK_SIZE - chunk.length))) := by
          rw [flushLoop]
          simp only [if_pos hfull, if_neg hshift]
        rw [heq]
        dsimp only
        refine ⟨h1, ?_, ?_, ?_⟩
        · intro hc
          simp at hc
        · intro b t het
          injection het with hb ht
          subst hb
          omega
        · rw [hsum]
          omega
    · -- the chunk is already full: the loop body never runs
      have heq : flushLoop (cur :: rest) offset chunk = (cur :: rest, offset, chunk) := by
        rw [flushLoop]
        simp only [if_neg hfull]
      rw [heq]
      dsimp only
      refine ⟨h1, ?_, ?_, ?_⟩
      · intro hc
        simp at hc
      · intro b t het
        injection het with hb ht
        subst hb
        exact hlt
      · rw [hsum]
        have h4z : chunk.length = BLOCK_SIZE := by omega
        omega

theorem flushTick_count (sf ie : Bool) (s : PState) (h : WfBuf s) :
    WfBuf (flushTick sf ie s).1 ∧
    getBufferedSampleCount (flushTick sf ie s).1 =
      getBufferedSampleCount s - BLOCK_SIZE := by
  by_cases hb : s.buffers = []
  · have hcount : getBufferedSampleCount s = 0 := by
      unfold getBufferedSampleCount
      simp [hb]
    have hkeep : (flushTick sf ie s).1.buffers = s.buffers ∧
        (flushTick sf ie s).1.bufferOffset = s.bufferOffset := by
      unfold flushTick pause
      simp only [if_pos hb]
      split
      · split
        · exact ⟨rfl, rfl⟩
        · exact ⟨rfl, rfl⟩
      · exact ⟨rfl, rfl⟩
    constructor
    · exact wfBuf_of_same_buffers _ _ hkeep.1 hkeep.2 h
    · have hsame : getBufferedSampleCount (flushTick sf ie s).1 =
          getBufferedSampleCount s := by
        unfold getBufferedSampleCount
        rw [hkeep.1, hkeep.2]
      rw [hsame, hcount]
      omega
    -- nonempty queue: the drain loop runs
  · have hspec := flushLoop_spec s.buffers s.bufferOffset [] h.2.1 h.1 h.2.2
      (by simp [BLOCK_SIZE])
    have hwf2 : WfBuf
        { s with buffers := (flushLoop s.buffers s.bufferOffset []).1,
                 bufferOffset := (flushLoop s.buffers s.bufferOffset []).2.1 } :=
      ⟨hspec.2.1, hspec.1, hspec.2.2.1⟩
    have heq : (flushTick sf ie s).1 =
        { s with buffers := (flushLoop s.buffers s.bufferOffset []).1,
                 bufferOffset := (flushLoop s.buffers s.bufferOffset []).2.1 } := by
      unfold flushTick
      simp only [if_neg hb]
    constructor
    · rw [heq]
      exact hwf2
    · rw [heq]
      have hc1 := getCount_eq _ hwf2
      have hc0 := getCount_eq _ h
      dsimp only at hc1
      have harith := hspec.2.2.2
      simp only [List.length_nil, Nat.cast_zero] at harith
      simp only [BLOCK_SIZE] at harith hc1 hc0 ⊢
      omega

theorem wfBuf_applyOp (s : PState) (op : PlayerOp) (h : WfBuf s) :
    WfBuf (applyOp s op) := by
  cases op with
  | enq sf pf arg rate => exact wfBuf_enqueue sf pf arg rate s h
  | tick sf ie => exact (flushTick_count sf ie s h).1

theorem wfBuf_runOps_general :
    ∀ (ops : List PlayerOp) (s : PState), WfBuf s → WfBuf (runOps s ops) := by
  intro ops
  induction ops with
  | nil => intro s h; exact h
  | cons op rest ih =>
    intro s h
    exact ih (applyOp s op) (wfBuf_applyOp s op h)

theorem count_zero_empty (s : PState) (h : WfBuf s)
    (hc : getBufferedSampleCount s = 0) : s.buffers = [] := by
  by_contra hne
  rcases hbl : s.buffers with _ | ⟨b, t⟩
  · exact hne hbl
  · have hlt := h.2.2 b t hbl
    have hble : b.length ≤ sumLen s.buffers := by
      rw [hbl, sumLen_cons]
      omega
    have := getCount_eq s h
    rw [hc] at this
    omega

theorem applyTicks_count :
    ∀ (flags : List (Bool × Bool)) (s : PState), WfBuf s →
      WfBuf (applyTicks s flags) ∧
      getBufferedSampleCount (applyTicks s flags) =
        getBufferedSampleCount s - flags.length * BLOCK_SIZE := by
  intro flags
  induction flags with
  | nil =>
    intro s h
    exact ⟨h, by simp [applyTicks]⟩
  | cons fl rest ih =>
    intro s h
    have h1 := flushTick_count fl.1 fl.2 s h
    have h2 := ih (flushTick fl.1 fl.2 s).1 h1.1
    have hstep : applyTicks s (fl :: rest) = applyTicks (flushTick fl.1 fl.2 s).1 rest := by
      rfl
    rw [hstep]
    refine ⟨h2.1, ?_⟩
    rw [h2.2, h1.2]
    simp only [List.length_cons, BLOCK_SIZE]
    omega

/-- C1: for every sequence of enqueue and flush-tick operations on a fresh
AudioPlayer, `getBufferedSampleCount()` equals the sum of the queued segment
lengths minus the consumed offset into the head segment; and once enough further
flush ticks have run to drain exactly that many samples (each tick drains
`BLOCK_SIZE` samples or whatever remains), the buffer queue is empty. -/
theorem c1_buffer_invariant :
    ∀ (ops : List PlayerOp),
      ((getBufferedSampleCount (runOps initPlayer ops) : ℤ) =
        (sumLen (runOps initPlayer ops).buffers : ℤ) -
          (runOps initPlayer ops).bufferOffset) ∧
      (∀ flags : List (Bool × Bool),
        getBufferedSampleCount (runOps initPlayer ops) ≤ flags.length * BLOCK_SIZE →
        (applyTicks (runOps initPlayer ops) flags).buffers = []) := by
  intro ops
  have hwf := wfBuf_runOps_general ops initPlayer wfBuf_init
  constructor
  · exact getCount_eq _ hwf
  · intro flags hle
    have h2 := applyTicks_count flags _ hwf
    refine count_zero_empty _ h2.1 ?_
    rw [h2.2]
    simp only [BLOCK_SIZE] at hle ⊢
    omega

/-- Witness for C1: enqueue one 30000-amplitude sample (24kHz, prefill disabled,
device start succeeding); the buffered count is 1, and a single flush tick
empties the queue. -/
theorem c1_buffer_invariant_witness :
    getBufferedSampleCount (runOps initPlayer
        [PlayerOp.enq false 0 (EnqArg.int16 [30000]) (JSNum.fin 24000)]) ≤
      ([((false : Bool), (false : Bool))] : List (Bool × Bool)).length * BLOCK_SIZE ∧
    (applyTicks (runOps initPlayer
        [PlayerOp.enq false 0 (EnqArg.int16 [30000]) (JSNum.fin 24000)])
        [((false : Bool), (false : Bool))]).buffers = [] :=
  ⟨by decide,
   (c1_buffer_invariant
       [PlayerOp.enq false 0 (EnqArg.int16 [30000]) (JSNum.fin 24000)]).2
     [((false : Bool), (false : Bool))] (by decide)⟩

end V2CC
